import Mathlib

set_option maxHeartbeats 1000000

/-!
Shallow embedding of the polymarket report pipeline
(`report_generator.py` and `polymarket_api.py`).

Conventions of the embedding:
* Python `datetime` values produced by `strptime("%B %d %Y")` are midnight
  datetimes; comparisons in the pipeline only ever compare their calendar
  dates, so they are modelled by `PDate` with lexicographic order.
* Python floats (prices in the range zero to one) are modelled by `ℚ`;
  the `"%.1f"` float format is modelled by decimal round-half-to-even on `ℚ`.
* Fields of the raw JSON records are modelled with the types they carry in
  the Polymarket responses (strings, booleans, lists); Python truthiness of
  an optional string is made explicit (`truthyStr`).
* The two remote endpoints used inside the per-item loop
  (`fetch_full_market_details` and `get_price_history`) are modelled as an
  oracle structure `Api`; `get_price_history` already returns `[]` on any
  failure, exactly as the source does.
-/

/-- Calendar date, standing for the `.date()` part of a Python `datetime`. -/
structure PDate where
  year : Nat
  month : Nat
  day : Nat
deriving DecidableEq, Repr

/-- Python `date` order (`<=`), lexicographic on (year, month, day). -/
def PDate.leb (a b : PDate) : Bool :=
  if a.year ≠ b.year then a.year < b.year
  else if a.month ≠ b.month then a.month < b.month
  else a.day ≤ b.day

/-- Python `date` strict order (`<`), lexicographic on (year, month, day). -/
def PDate.ltb (a b : PDate) : Bool :=
  if a.year ≠ b.year then a.year < b.year
  else if a.month ≠ b.month then a.month < b.month
  else a.day < b.day

/-- Case folding used by `re.IGNORECASE` on the month-name alternation. -/
def pyLower (c : Char) : Char := c.toLower

/-- The characters matched by the regex class from whitespace in a
`strptime` format string. -/
def isPySpace (c : Char) : Bool :=
  c = ' ' || c = '\t' || c = '\n' || c = '\r' || c = '\x0b' || c = '\x0c'

/-- Full month names recognised by the `%B` directive (C locale). -/
def monthNames : List String :=
  ["January", "February", "March", "April", "May", "June",
   "July", "August", "September", "October", "November", "December"]

/-- The canonical (capitalised) name of month `mo` (1-based). -/
def monthName (mo : Nat) : String := (monthNames.get? (mo - 1)).getD ""

/-- Strip `p` from the front of `s`, comparing case-insensitively;
returns the rest of `s` on success. -/
def dropCaseless : List Char → List Char → Option (List Char)
  | [], s => some s
  | _ :: _, [] => none
  | p :: ps, c :: cs =>
    if pyLower c = pyLower p then dropCaseless ps cs else none

/-- Try the month names in order, returning the 1-based month number and
the rest of the input.  No month name is a prefix of another, so the
alternation order is irrelevant and the match is deterministic. -/
def monthMatchFrom : Nat → List String → List Char → Option (Nat × List Char)
  | _, [], _ => none
  | i, n :: ns, s =>
    match dropCaseless n.data s with
    | some rest => some (i, rest)
    | none => monthMatchFrom (i + 1) ns s

/-- The `%B` directive: match a full month name case-insensitively. -/
def matchMonth (s : List Char) : Option (Nat × List Char) :=
  monthMatchFrom 1 monthNames s

/-- One-or-more whitespace (a literal blank in a `strptime` format).
Maximal munch is faithful because the next directive always starts with a
digit, and digits are not whitespace. -/
def ws1 : List Char → Option (List Char)
  | [] => none
  | c :: cs => if isPySpace c then some (cs.dropWhile isPySpace) else none

/-- Numeric value of a digit character. -/
def dval (c : Char) : Nat := c.toNat - '0'.toNat

/-- The regex class from the `\d` shorthand, restricted to ASCII. -/
def isDig (c : Char) : Bool := 48 ≤ c.toNat && c.toNat ≤ 57

/-- The regex class written as the range from one to nine. -/
def isD19 (c : Char) : Bool := 49 ≤ c.toNat && c.toNat ≤ 57

/-- The three two-digit alternatives of the `%d` day regex, in
alternation order: thirty or thirty-one, ten through twenty-nine,
zero-padded one through nine. -/
def twoDigitDay (c1 c2 : Char) : Bool :=
  (c1 = '3' && (c2 = '0' || c2 = '1')) || ((c1 = '1' || c1 = '2') && isDig c2)
    || (c1 = '0' && isD19 c2)

/-- The `%d` directive with the regex's backtracking resolved: if a
two-digit alternative matches, a later failure cannot be rescued by the
one-digit alternative (the second digit is never the whitespace the
format requires next), so trying two digits first and otherwise one
digit is exact. -/
def matchDay : List Char → Option (Nat × List Char)
  | [] => none
  | [c] => if isD19 c then some (dval c, []) else none
  | c1 :: c2 :: rest =>
    if twoDigitDay c1 c2 then some (dval c1 * 10 + dval c2, rest)
    else if isD19 c1 then some (dval c1, c2 :: rest)
    else none

/-- The `%Y` directive (exactly four digits) followed by the
end-of-input check `strptime` performs on the leftover text: the
remaining input must be exactly four digits. -/
def matchYear4 : List Char → Option Nat
  | [a, b, c, d] =>
    if isDig a && isDig b && isDig c && isDig d then
      some (((dval a * 10 + dval b) * 10 + dval c) * 10 + dval d)
    else none
  | _ => none

/-- Gregorian leap-year rule (as used by Python `datetime`). -/
def isLeap (y : Nat) : Bool := y % 4 = 0 && (y % 100 ≠ 0 || y % 400 = 0)

/-- Number of days in a month, per Python `datetime`'s validation. -/
def daysInMonth (y mo : Nat) : Nat :=
  if mo = 2 then (if isLeap y then 29 else 28)
  else if mo = 4 || mo = 6 || mo = 9 || mo = 11 then 30
  else 31

/-- Model of `strptime(s, "%B %d %Y")` followed by the `datetime` constructor's
validation (day within the month, year at least `MINYEAR = 1`); any
failure is the `ValueError` that `parse_market_date` turns into `None`. -/
def parseFullChars (s : List Char) : Option PDate :=
  match matchMonth s with
  | none => none
  | some (mo, r1) =>
    match ws1 r1 with
    | none => none
    | some r2 =>
      match matchDay r2 with
      | none => none
      | some (d, r3) =>
        match ws1 r3 with
        | none => none
        | some r4 =>
          match matchYear4 r4 with
          | none => none
          | some y =>
            if 1 ≤ y && d ≤ daysInMonth y mo then some ⟨y, mo, d⟩ else none

/-- Function `parse_market_date` from `report_generator.py`: append the current
year to the title and parse with `"%B %d %Y"`, returning `none` on any
`ValueError`. -/
def parse_market_date (title : String) (year : Nat) : Option PDate :=
  parseFullChars (title ++ " " ++ toString year).data

/-- Shape of the `outcomes` / `clobTokenIds` fields, which arrive either
as actual JSON lists or as list-shaped strings needing a second decode
(`parse_stringified_list` in `polymarket_api.py`).  `strGood xs` is a
string field that decodes to the list `xs`; `strBad` is a string field on
which `json.loads` raises `JSONDecodeError`. -/
inductive RawField where
  | absent
  | strGood (xs : List String)
  | strBad
  | lst (xs : List String)
deriving DecidableEq, Repr

/-- One entry of the explicit `tokens` list of a market record. -/
structure TokenEntry where
  outcome : Option String
  tokenId : Option String
deriving DecidableEq, Repr

/-- A raw sub-market record as consumed by the pipeline. -/
structure Market where
  status : String
  closed : Bool
  isResolved : Bool
  groupItemTitle : Option String
  question : Option String
  slug : Option String
  tokens : Option (List TokenEntry)
  outcomes : RawField
  clobTokenIds : RawField
deriving DecidableEq, Repr

/-- Function `parse_stringified_list`: decode a possibly-stringified list field;
a string that fails to decode yields `[]`, a missing field behaves like
`[]` downstream (both are falsy and never indexed). -/
def parse_stringified_list : RawField → List String
  | .absent => []
  | .strGood xs => xs
  | .strBad => []
  | .lst xs => xs

/-- Python `str.lower()` (character-wise, ASCII case folding). -/
def lowerStr (s : String) : String := String.mk (s.data.map Char.toLower)

/-- Python `str.strip()`: remove leading and trailing whitespace. -/
def trimStr (s : String) : String :=
  String.mk (((s.data.dropWhile isPySpace).reverse.dropWhile isPySpace).reverse)

/-- The test `str(x).strip().lower() in ["yes", "true"]`. -/
def isYesName (s : String) : Bool :=
  lowerStr (trimStr s) == "yes" || lowerStr (trimStr s) == "true"

/-- The first phase of `get_yes_token_id`: scan the explicit `tokens`
list; `some r` means the loop returned (with `r` the entry's possibly
missing `tokenId`), `none` means control fell through to the
`clobTokenIds` fallback. -/
def tokensStep (m : Market) : Option (Option String) :=
  match m.tokens with
  | none => none
  | some ts =>
    if ts.isEmpty then none
    else
      match ts.find? (fun t => isYesName (t.outcome.getD "")) with
      | some t => some t.tokenId
      | none => none

/-- The parallel-lists fallback of `get_yes_token_id`: find the index of
the first case-insensitive yes/true outcome name and return the token id
at that index, guarded by the bounds check `idx < len(clob_ids)`. -/
def clobStep (m : Market) : Option String :=
  if (parse_stringified_list m.clobTokenIds).isEmpty
      || (parse_stringified_list m.outcomes).isEmpty then none
  else
    match (parse_stringified_list m.outcomes).findIdx? isYesName with
    | some i =>
      if h : i < (parse_stringified_list m.clobTokenIds).length then
        some ((parse_stringified_list m.clobTokenIds).get ⟨i, h⟩)
      else none
    | none => none

/-- Function `get_yes_token_id` from `polymarket_api.py`. -/
def get_yes_token_id (m : Market) : Option String :=
  match tokensStep m with
  | some r => r
  | none => clobStep m

/-- Predicate `is_market_closed` from `report_generator.py` (the set membership
test written as the disjunction of the three equalities). -/
def is_market_closed (m : Market) : Bool :=
  m.closed || m.isResolved
    || (lowerStr m.status == "closed" || lowerStr m.status == "resolved"
        || lowerStr m.status == "finalized")

/-- Title fallback `market.get('groupItemTitle', market.get('question', 'Unknown'))`. -/
def displayTitle (m : Market) : String :=
  m.groupItemTitle.getD (m.question.getD "Unknown")

/-- The per-market step of the `valid_markets` loop: drop closed markets,
drop markets whose parsed date is today or earlier, keep the rest as a
(market, title, optional parsed date) triple. -/
def keepMarket (today : PDate) (year : Nat) (m : Market) :
    Option (Market × String × Option PDate) :=
  if is_market_closed m then none
  else
    match parse_market_date (displayTitle m) year with
    | some d =>
      if PDate.leb d today then none else some (m, displayTitle m, some d)
    | none => some (m, displayTitle m, none)

/-- The `valid_markets` list. -/
def validOf (markets : List Market) (today : PDate) (year : Nat) :
    List (Market × String × Option PDate) :=
  markets.filterMap (keepMarket today year)

/-- Comparison used by `sorted(dated, key=lambda x: x[2])`; every element
of the dated sublist carries `some` date, so the default is never read. -/
def itemLeb (a b : Market × String × Option PDate) : Bool :=
  PDate.leb (a.2.2.getD ⟨0, 0, 0⟩) (b.2.2.getD ⟨0, 0, 0⟩)

/-- Step 2 of `generate_report`: dated (sorted ascending, stably) before
undated (original order), truncated to five. -/
def orderedOf (valid : List (Market × String × Option PDate)) :
    List (Market × String × Option PDate) :=
  ((valid.filter (fun it => it.2.2.isSome)).mergeSort itemLeb
    ++ valid.filter (fun it => it.2.2.isNone)).take 5

/-- The full Policy A selection. -/
def selectionOf (markets : List Market) (today : PDate) (year : Nat) :
    List (Market × String × Option PDate) :=
  orderedOf (validOf markets today year)

/-- One point of a price history (`{'t': seconds, 'p': price}`). -/
structure PricePoint where
  t : Int
  p : ℚ
deriving DecidableEq, Repr

/-- The two Data-Source calls made inside the per-item loop, as an
oracle.  `getPriceHistory` returns `[]` when every retry strategy fails,
exactly as `get_price_history` does. -/
structure Api where
  fetchFullMarketDetails : String → Option Market
  getPriceHistory : String → List PricePoint

/-- Python truthiness of an optional string (`if not yes_token_id`). -/
def truthyStr : Option String → Bool
  | none => false
  | some s => !s.isEmpty

/-- The summary-miss fallback block of the loop: fetch the full record by
slug (when the slug is truthy) and rerun `get_yes_token_id` on it.  The
second component records the slugs actually fetched. -/
def fullFetchResolve (api : Api) (m : Market) (t0 : Option String) :
    Option String × List String :=
  match m.slug with
  | none => (t0, [])
  | some s =>
    if s.isEmpty then (t0, [])
    else
      match api.fetchFullMarketDetails s with
      | some full => (get_yes_token_id full, [s])
      | none => (t0, [s])

/-- Token resolution for one selected market, with the fetch trace. -/
def resolveYesTokenTr (api : Api) (m : Market) : Option String × List String :=
  if truthyStr (get_yes_token_id m) then (get_yes_token_id m, [])
  else fullFetchResolve api m (get_yes_token_id m)

/-- Token resolution for one selected market (result only). -/
def resolveYesToken (api : Api) (m : Market) : Option String :=
  (resolveYesTokenTr api m).1

/-- Sort of the history by timestamp ascending, as `df.sort_values('t')`.
(The embedding determinises equal timestamps by a stable sort.) -/
def sortHistory (h : List PricePoint) : List PricePoint :=
  h.mergeSort (fun a b => decide (a.t ≤ b.t))

/-- The last observed price, `df['p'].iloc[-1]` after sorting. -/
def lastPrice (h : List PricePoint) : ℚ :=
  (((sortHistory h).getLast?).map (fun pt => pt.p)).getD 0

/-- Decimal round-half-to-even, modelling how `"%.1f"` rounds. -/
def roundHalfEven (q : ℚ) : Int :=
  let f : Int := ⌊q⌋
  let r : ℚ := q - f
  if r < 1/2 then f
  else if 1/2 < r then f + 1
  else if f % 2 = 0 then f else f + 1

/-- Format `f"{x:.1f}"`: one decimal place. -/
def fmtFixed1 (x : ℚ) : String :=
  let n := roundHalfEven (x * 10)
  if n < 0 then "-" ++ toString ((-n) / 10) ++ "." ++ toString ((-n) % 10)
  else toString (n / 10) ++ "." ++ toString (n % 10)

/-- Zero-pad to two digits. -/
def pad2 (n : Nat) : String := if n < 10 then "0" ++ toString n else toString n

/-- Zero-pad to four digits. -/
def pad4 (n : Nat) : String :=
  if n < 10 then "000" ++ toString n
  else if n < 100 then "00" ++ toString n
  else if n < 1000 then "0" ++ toString n
  else toString n

/-- Date format `strftime('%Y-%m-%d')`. -/
def fmtDateISO (d : PDate) : String :=
  pad4 d.year ++ "-" ++ pad2 d.month ++ "-" ++ pad2 d.day

/-- The `group_date` label of an item: the raw title, decorated with the
ISO date when the title parsed. -/
def groupDateLabel (title : String) (pd : Option PDate) : String :=
  match pd with
  | some d => title ++ " (" ++ fmtDateISO d ++ ")"
  | none => title

/-- Left-justification in a 24-character field, `f"{group_date:<24}"`. -/
def padTo24 (s : String) : String :=
  s ++ String.mk (List.replicate (24 - s.length) ' ')

/-- One table row: `f"{group_date:<24} | {current_val_str}"`. -/
def mkRow (gd val : String) : String := padTo24 gd ++ " | " ++ val

/-- What one chart panel shows: a plotted series (with the highlighted
current value), or one of the two placeholder markers. -/
inductive Panel where
  | series (label : String) (pts : List (Int × ℚ)) (currentVal : ℚ)
  | noHistory
  | dataUnavailable
deriving DecidableEq, Repr

/-- The body of the per-item loop of `generate_report`: resolve the yes
token (with the one-shot fallback), fetch history for a truthy token,
and produce the panel and the table row. -/
def processItem (api : Api) (it : Market × String × Option PDate) : Panel × String :=
  match resolveYesToken api it.1 with
  | some tid =>
    if tid.isEmpty then
      (Panel.dataUnavailable, mkRow (groupDateLabel it.2.1 it.2.2) "N/A")
    else if (api.getPriceHistory tid).isEmpty then
      (Panel.noHistory, mkRow (groupDateLabel it.2.1 it.2.2) "N/A")
    else
      (Panel.series (groupDateLabel it.2.1 it.2.2)
          ((sortHistory (api.getPriceHistory tid)).map (fun pt => (pt.t, 100 * pt.p)))
          (100 * lastPrice (api.getPriceHistory tid)),
        mkRow (groupDateLabel it.2.1 it.2.2)
          (fmtFixed1 (100 * lastPrice (api.getPriceHistory tid)) ++ "%"))
  | none => (Panel.dataUnavailable, mkRow (groupDateLabel it.2.1 it.2.2) "N/A")

/-- The outcome of `generate_report`: either `(None, message)` or the
rendered pair (chart panels, table rows). -/
inductive ReportResult where
  | failure (msg : String)
  | success (panels : List Panel) (rows : List String)
deriving DecidableEq, Repr

/-- Orchestrator `generate_report` from `report_generator.py`, with the event fetch
already performed (`markets` is the Data-Source response) and the two
clock reads (`datetime.now().date()` and `datetime.now().year`) passed
explicitly. -/
def generate_report (api : Api) (markets : List Market) (today : PDate) (year : Nat) :
    ReportResult :=
  if markets.isEmpty then
    ReportResult.failure "Could not fetch event markets. Check the URL."
  else if (validOf markets today year).isEmpty then
    ReportResult.failure "No open future markets found for this event."
  else
    ReportResult.success
      ((selectionOf markets today year).map (fun it => (processItem api it).1))
      ((selectionOf markets today year).map (fun it => (processItem api it).2))

/-- Cumulative days before month `mo` in a non-leap year. -/
def daysBeforeMonth (mo : Nat) : Nat :=
  (([0, 31, 59, 90, 120, 151, 181, 212, 243, 273, 304, 334].get? (mo - 1)).getD 0)

/-- Modelled from the spec: absolute day number of a calendar date (days since the proleptic
Gregorian epoch), so that differences of `toOrd` are time distances in
days. -/
def toOrd (d : PDate) : Nat :=
  let y := d.year - 1
  365 * y + y / 4 - y / 100 + y / 400 + daysBeforeMonth d.month
    + (if isLeap d.year && decide (2 < d.month) then 1 else 0) + d.day

/-- Modelled from the spec: the absolute time distance between two day numbers. -/
def dateDist (a b : Nat) : Nat := max a b - min a b

/-- Modelled from the spec: Policy B step 1 — keep only the SubMarkets
whose title parses into a date (undated markets are unusable under this
policy).  Policy B is described in the spec but has no implementation
under `src/`. -/
def datedOnly (markets : List Market) (year : Nat) : List (Market × PDate) :=
  markets.filterMap (fun m => (parse_market_date (displayTitle m) year).map (fun d => (m, d)))

/-- Modelled from the spec: Policy B step 2 — the three target dates:
now, now plus seven days, and the last calendar day of the current
month. -/
def policyBTargets (now : PDate) : List Nat :=
  [toOrd now, toOrd now + 7, toOrd ⟨now.year, now.month, daysInMonth now.year now.month⟩]

/-- Modelled from the spec: first-encountered minimum of `f` over `x :: xs` (ties broken by
original list order). -/
def pickMin (f : α → Nat) (x : α) (xs : List α) : α :=
  xs.foldl (fun best y => if f y < f best then y else best) x

/-- Modelled from the spec: Policy B — "closest to three fixed targets".
For each target, select the SubMarket whose parsed date has the minimum
absolute time distance to that target, ties broken by first-encountered
minimum; the same SubMarket may be selected for more than one target.
If zero SubMarkets parse, report failure (`none`) instead of proceeding
with an empty selection. -/
def policyB (markets : List Market) (now : PDate) (year : Nat) :
    Option (List (Market × PDate)) :=
  match datedOnly markets year with
  | [] => none
  | x :: xs =>
    some ((policyBTargets now).map (fun t => pickMin (fun it => dateDist (toOrd it.2) t) x xs))

/-- Value of a digit string, most significant first. -/
def digitsToNat (l : List Char) : Nat := l.foldl (fun a c => 10 * a + dval c) 0

/-- The exact shape of a title the date parser accepts: a full month
name (case-insensitively), one or more whitespace characters, a one- or
two-digit day, and optional trailing whitespace.  This is the precise
meaning of a title of the form month-name day. -/
def TitleDateForm (s : String) (mo d : Nat) : Prop :=
  ∃ mpre w1 ds w2,
    s.data = mpre ++ w1 ++ ds ++ w2
    ∧ mpre.map pyLower = (monthName mo).data.map pyLower
    ∧ w1 ≠ [] ∧ (∀ c ∈ w1, isPySpace c = true)
    ∧ ds ≠ [] ∧ ds.length ≤ 2 ∧ (∀ c ∈ ds, isDig c = true) ∧ digitsToNat ds = d
    ∧ (∀ c ∈ w2, isPySpace c = true)

/-- Exhaustive boolean check that every valid month/day pair, rendered
canonically, parses back to itself in the year two thousand twenty-six. -/
def checkCanonicalTitles : Bool :=
  (List.range 13).all fun mo =>
    (List.range 32).all fun d =>
      !(decide (1 ≤ mo) && decide (1 ≤ d) && decide (d ≤ daysInMonth 2026 mo))
        || (parse_market_date (monthName mo ++ " " ++ toString d) 2026
              == some ⟨2026, mo, d⟩)

/-- A row is a best pick for target `t` from `items`: it attains the
minimum distance and strictly beats everything before it in the list
(first-encountered-minimum tie-breaking). -/
def bestFor (items : List (Market × PDate)) (t : Nat) (row : Market × PDate) : Prop :=
  (∀ it ∈ items, dateDist (toOrd row.2) t ≤ dateDist (toOrd it.2) t)
    ∧ ∃ pre suf, items = pre ++ row :: suf
        ∧ ∀ p ∈ pre, dateDist (toOrd row.2) t < dateDist (toOrd p.2) t

/-- The probability column of one table row, as the loop computes it. -/
def probValue (api : Api) (m : Market) : String :=
  match resolveYesToken api m with
  | some tid =>
    if tid.isEmpty then "N/A"
    else if (api.getPriceHistory tid).isEmpty then "N/A"
    else fmtFixed1 (100 * lastPrice (api.getPriceHistory tid)) ++ "%"
  | none => "N/A"

/-- An oracle whose full-detail fetch always misses and whose history is
always empty. -/
def apiEmpty : Api := ⟨fun _ => none, fun _ => []⟩

/-- A concrete open sub-market titled with a date. -/
def mJan31 : Market :=
  ⟨"", false, false, some "January 31", none, none, none, RawField.absent, RawField.absent⟩

/-! ## Theorems -/

theorem pdate_leb_total (a b : PDate) : (PDate.leb a b || PDate.leb b a) = true := by
  simp only [PDate.leb]
  split_ifs <;> simp <;> omega

theorem pdate_leb_trans (a b c : PDate) (h1 : PDate.leb a b = true)
    (h2 : PDate.leb b c = true) : PDate.leb a c = true := by
  simp only [PDate.leb] at *
  split_ifs at * <;> simp_all <;> omega

theorem pdate_not_leb (a b : PDate) : PDate.leb a b = false ↔ PDate.ltb b a = true := by
  simp only [PDate.leb, PDate.ltb]
  split_ifs <;> simp <;> omega

theorem itemLeb_trans (a b c : Market × String × Option PDate)
    (h1 : itemLeb a b = true) (h2 : itemLeb b c = true) : itemLeb a c = true :=
  pdate_leb_trans _ _ _ h1 h2

theorem itemLeb_total (a b : Market × String × Option PDate) :
    (itemLeb a b || itemLeb b a) = true :=
  pdate_leb_total _ _

theorem keepMarket_eq_some {today : PDate} {year : Nat} {m : Market}
    {it : Market × String × Option PDate} (h : keepMarket today year m = some it) :
    is_market_closed m = false
    ∧ it = (m, displayTitle m, parse_market_date (displayTitle m) year)
    ∧ ∀ d, parse_market_date (displayTitle m) year = some d → PDate.leb d today = false := by
  unfold keepMarket at h
  split at h
  · exact absurd h (by simp)
  next hc =>
  refine ⟨by simpa using hc, ?_⟩
  split at h
  next d hp =>
    split at h
    · exact absurd h (by simp)
    next hle =>
      refine ⟨?_, ?_⟩
      · rw [← Option.some_inj.mp h, hp]
      · intro d' hd'
        rw [hp] at hd'
        cases Option.some_inj.mp hd'
        simpa using hle
  next hp =>
    refine ⟨by rw [← Option.some_inj.mp h, hp], ?_⟩
    intro d' hd'
    rw [hp] at hd'
    exact absurd hd' (by simp)

theorem mem_validOf {markets : List Market} {today : PDate} {year : Nat}
    {it : Market × String × Option PDate} (h : it ∈ validOf markets today year) :
    it.1 ∈ markets ∧ is_market_closed it.1 = false ∧ it.2.1 = displayTitle it.1
    ∧ it.2.2 = parse_market_date (displayTitle it.1) year
    ∧ ∀ d, it.2.2 = some d → PDate.leb d today = false := by
  obtain ⟨m, hm, hk⟩ := List.mem_filterMap.mp h
  obtain ⟨hcl, hit, hfut⟩ := keepMarket_eq_some hk
  subst hit
  exact ⟨hm, hcl, rfl, rfl, hfut⟩

theorem mem_selectionOf {markets : List Market} {today : PDate} {year : Nat}
    {it : Market × String × Option PDate} (h : it ∈ selectionOf markets today year) :
    it ∈ validOf markets today year := by
  unfold selectionOf orderedOf at h
  have h2 := (List.take_sublist 5 _).subset h
  rcases List.mem_append.mp h2 with h3 | h3
  · exact List.mem_of_mem_filter (List.mem_mergeSort.mp h3)
  · exact List.mem_of_mem_filter h3

theorem validOf_fst_sublist (markets : List Market) (today : PDate) (year : Nat) :
    ((validOf markets today year).map (fun it => it.1)).Sublist markets := by
  induction markets with
  | nil => simp [validOf]
  | cons m ms ih =>
    rw [validOf, List.filterMap_cons]
    cases hk : keepMarket today year m with
    | none => exact (ih).cons m
    | some it =>
      obtain ⟨_, hit, _⟩ := keepMarket_eq_some hk
      subst hit
      simpa using ih.cons₂ m

/-- C7: a sub-market record is discarded by the selector's closed-market
filter exactly when it carries a truthy closed or resolved flag, or its
status field equals closed, resolved, or finalized compared
case-insensitively; consequently every selected item is open. -/
theorem closedMarketFiltering (m : Market) (markets : List Market) (today : PDate) (year : Nat) :
    (is_market_closed m = true ↔
      (m.closed = true ∨ m.isResolved = true ∨ lowerStr m.status = "closed"
        ∨ lowerStr m.status = "resolved" ∨ lowerStr m.status = "finalized"))
    ∧ ∀ it ∈ selectionOf markets today year, is_market_closed it.1 = false := by
  constructor
  · simp [is_market_closed, or_assoc]
  · intro it hit
    exact (mem_validOf (mem_selectionOf hit)).2.1

/-- C7 witness: a record whose status field is an upper-case variant of
closed is discarded by the filter. -/
theorem closedMarketFiltering_witness :
    is_market_closed ⟨"CLOSED", false, false, none, none, none, none,
      RawField.absent, RawField.absent⟩ = true :=
  (closedMarketFiltering ⟨"CLOSED", false, false, none, none, none, none,
      RawField.absent, RawField.absent⟩ [] ⟨2026, 1, 1⟩ 2026).1.mpr
    (Or.inr (Or.inr (Or.inl (by decide))))

/-- C4: for each selected market, if the yes token resolves truthily
from the summary record no fetch happens; otherwise, with a truthy slug,
the full record is fetched exactly once and the same resolution
(`get_yes_token_id`) is rerun on it; with no usable slug nothing is
fetched; in every case at most one fetch happens and there is no further
fallback beyond the rerun. -/
theorem oneShotFallback (api : Api) (m : Market) :
    (resolveYesTokenTr api m).1 = resolveYesToken api m
    ∧ (resolveYesTokenTr api m).2.length ≤ 1
    ∧ (truthyStr (get_yes_token_id m) = true →
        resolveYesTokenTr api m = (get_yes_token_id m, []))
    ∧ (truthyStr (get_yes_token_id m) = false → ∀ s, m.slug = some s → s ≠ "" →
        (resolveYesTokenTr api m).2 = [s]
        ∧ (resolveYesTokenTr api m).1 =
            (match api.fetchFullMarketDetails s with
             | some full => get_yes_token_id full
             | none => get_yes_token_id m))
    ∧ (truthyStr (get_yes_token_id m) = false → (m.slug = none ∨ m.slug = some "") →
        resolveYesTokenTr api m = (get_yes_token_id m, [])) := by
  refine ⟨rfl, ?_, ?_, ?_, ?_⟩
  · unfold resolveYesTokenTr fullFetchResolve
    by_cases ht : truthyStr (get_yes_token_id m) = true
    · simp [ht]
    · rw [if_neg ht]
      cases m.slug with
      | none => simp
      | some s =>
        dsimp only
        by_cases hs : s.isEmpty = true
        · simp [hs]
        · rw [if_neg hs]
          cases api.fetchFullMarketDetails s <;> simp
  · intro ht
    unfold resolveYesTokenTr
    simp [ht]
  · intro ht s hsl hne
    have hs : ¬s.isEmpty = true := by
      intro he
      exact hne ((String.isEmpty_iff s).mp he)
    unfold resolveYesTokenTr fullFetchResolve
    rw [ht, hsl]
    dsimp only
    rw [if_neg (by simp), if_neg hs]
    cases api.fetchFullMarketDetails s <;> simp
  · intro ht hsl
    unfold resolveYesTokenTr fullFetchResolve
    rw [ht]
    rcases hsl with h | h
    · rw [h]
      simp
    · rw [h]
      dsimp only
      rw [if_neg (by simp), if_pos (by rfl)]

/-- C4 witness: a market with no token data and a truthy slug fetches
exactly its slug once and reruns resolution on the fetched record. -/
theorem oneShotFallback_witness :
    (resolveYesTokenTr apiEmpty ⟨"", false, false, none, none, some "slug-a", none,
        RawField.absent, RawField.absent⟩).2 = ["slug-a"] :=
  ((oneShotFallback apiEmpty ⟨"", false, false, none, none, some "slug-a", none,
      RawField.absent, RawField.absent⟩).2.2.2.1 (by decide) "slug-a" rfl (by decide)).1

/-- C8 (amended): with the clock reads fixed, the report is a pure
function of the sub-market list and the Data-Source responses: two
oracles that answer identically on every query yield identical results. -/
theorem reportPureFunction (api1 api2 : Api) (markets : List Market) (today : PDate) (year : Nat)
    (hf : ∀ s, api1.fetchFullMarketDetails s = api2.fetchFullMarketDetails s)
    (hh : ∀ t, api1.getPriceHistory t = api2.getPriceHistory t) :
    generate_report api1 markets today year = generate_report api2 markets today year := by
  obtain ⟨f1, g1⟩ := api1
  obtain ⟨f2, g2⟩ := api2
  have h1 : f1 = f2 := funext hf
  have h2 : g1 = g2 := funext hh
  rw [h1, h2]

/-- C8 (counterexample): with the very same sub-market list and the very
same Data-Source responses, two invocations made on different days
produce different results, because the code reads the clock: a market
titled January the thirty-first is in the future on January the
fifteenth but past on February the fifteenth. -/
theorem reportDependsOnClock :
    generate_report apiEmpty [mJan31] ⟨2026, 1, 15⟩ 2026 ≠
      generate_report apiEmpty [mJan31] ⟨2026, 2, 15⟩ 2026 := by
  decide

/-- C8 witness. -/
theorem reportPureFunction_witness :
    generate_report apiEmpty [mJan31] ⟨2026, 1, 15⟩ 2026 =
      generate_report apiEmpty [mJan31] ⟨2026, 1, 15⟩ 2026 :=
  reportPureFunction apiEmpty apiEmpty [mJan31] ⟨2026, 1, 15⟩ 2026
    (fun _ => rfl) (fun _ => rfl)

/-- C10: the token lookup is total by construction; in the
parallel-lists fallback, a yes index at or past the end of the decoded
token-id list yields none instead of an out-of-bounds access, a
token is only ever produced from a valid index, and a string-shaped
field that fails to decode is treated as the empty list. -/
theorem tokenLookupIndexSafety (m : Market) :
    parse_stringified_list RawField.strBad = []
    ∧ (tokensStep m = none →
        ∀ i, (parse_stringified_list m.outcomes).findIdx? isYesName = some i →
        ¬ i < (parse_stringified_list m.clobTokenIds).length →
        get_yes_token_id m = none)
    ∧ (∀ tid, get_yes_token_id m = some tid →
        tokensStep m = some (some tid)
        ∨ ∃ i, ∃ h : i < (parse_stringified_list m.clobTokenIds).length,
            (parse_stringified_list m.outcomes).findIdx? isYesName = some i
            ∧ tid = (parse_stringified_list m.clobTokenIds).get ⟨i, h⟩) := by
  refine ⟨rfl, ?_, ?_⟩
  · intro ht i hi hlt
    unfold get_yes_token_id
    rw [ht]
    dsimp only
    unfold clobStep
    by_cases he : ((parse_stringified_list m.clobTokenIds).isEmpty
        || (parse_stringified_list m.outcomes).isEmpty) = true
    · rw [if_pos he]
    · rw [if_neg he, hi]
      dsimp only
      rw [dif_neg hlt]
  · intro tid htid
    unfold get_yes_token_id at htid
    cases hts : tokensStep m with
    | some r =>
      rw [hts] at htid
      dsimp only at htid
      exact Or.inl (by rw [htid])
    | none =>
      rw [hts] at htid
      dsimp only at htid
      unfold clobStep at htid
      split at htid
      · exact absurd htid (by simp)
      · split at htid
        next i hi =>
          by_cases hlt : i < (parse_stringified_list m.clobTokenIds).length
          · rw [dif_pos hlt] at htid
            exact Or.inr ⟨i, hlt, hi, (Option.some_inj.mp htid).symm⟩
          · rw [dif_neg hlt] at htid
            exact absurd htid (by simp)
        · exact absurd htid (by simp)

theorem length_filter_partition (l : List (Market × String × Option PDate)) :
    ((l.filter (fun it => it.2.2.isSome)).length
      + (l.filter (fun it => it.2.2.isNone)).length) = l.length := by
  induction l with
  | nil => rfl
  | cons x xs ih =>
    cases hx : x.2.2 <;> simp [List.filter_cons, hx] <;> omega

theorem selectionOf_eq_nil_iff (markets : List Market) (today : PDate) (year : Nat) :
    selectionOf markets today year = [] ↔ validOf markets today year = [] := by
  constructor
  · intro h
    have hlen := congrArg List.length h
    simp only [selectionOf, orderedOf, List.length_take, List.length_append,
      List.length_mergeSort, List.length_nil] at hlen
    have hpart := length_filter_partition (validOf markets today year)
    have : (validOf markets today year).length = 0 := by omega
    exact List.length_eq_zero.mp this
  · intro h
    rw [selectionOf, orderedOf, h]
    simp

theorem generate_report_success (api : Api) (markets : List Market) (today : PDate)
    (year : Nat) (h : validOf markets today year ≠ []) :
    generate_report api markets today year =
      ReportResult.success
        ((selectionOf markets today year).map (fun it => (processItem api it).1))
        ((selectionOf markets today year).map (fun it => (processItem api it).2)) := by
  have hm : markets ≠ [] := by
    intro he
    exact h (by rw [he]; rfl)
  unfold generate_report
  rw [if_neg (by simpa using hm), if_neg (by simpa using h)]

/-- C6: with no sub-markets from the Data Source the report is the
explanatory fetch-failure message and no image; with sub-markets but an
empty Policy A selection it is the distinct no-open-future-markets
message and no image; in both cases nothing is resolved or rendered
(the result does not depend on the oracle at all), and a failure is
never a success. -/
theorem terminalFailures (api api2 : Api) (markets : List Market) (today : PDate) (year : Nat) :
    (markets = [] → generate_report api markets today year =
        ReportResult.failure "Could not fetch event markets. Check the URL.")
    ∧ (markets ≠ [] → validOf markets today year = [] →
        generate_report api markets today year =
          ReportResult.failure "No open future markets found for this event.")
    ∧ (("Could not fetch event markets. Check the URL." : String) ≠
        "No open future markets found for this event.")
    ∧ (selectionOf markets today year = [] ↔ validOf markets today year = [])
    ∧ (validOf markets today year = [] →
        generate_report api markets today year = generate_report api2 markets today year)
    ∧ (∀ msg panels rows, ReportResult.failure msg ≠ ReportResult.success panels rows) := by
  refine ⟨?_, ?_, by decide, selectionOf_eq_nil_iff markets today year, ?_, ?_⟩
  · intro h
    subst h
    rfl
  · intro h1 h2
    unfold generate_report
    rw [if_neg (by simpa using h1), if_pos (by simpa using h2)]
  · intro h2
    unfold generate_report
    by_cases hm : markets.isEmpty = true
    · rw [if_pos hm, if_pos hm]
    · rw [if_neg hm, if_neg hm, if_pos (by simpa using h2), if_pos (by simpa using h2)]
  · intro msg panels rows h
    exact ReportResult.noConfusion h

/-- C6 witness: the empty upstream case at a concrete input. -/
theorem terminalFailures_witness :
    generate_report apiEmpty [] ⟨2026, 1, 1⟩ 2026 =
      ReportResult.failure "Could not fetch event markets. Check the URL." :=
  (terminalFailures apiEmpty apiEmpty [] ⟨2026, 1, 1⟩ 2026).1 rfl

/-- C2: a selected item whose yes token does not resolve truthily (even
after the fallback fetch) produces the data-unavailable placeholder
panel (no plotted series) and a row whose probability field is exactly
the sentinel; a truthy token with an empty history produces the
no-history placeholder and the same sentinel row; the whole computation
is total (never raises), and rows are computed item by item via a map,
so one failing item cannot affect any other item's row. -/
theorem missingDataDegradation (api : Api) (it : Market × String × Option PDate)
    (markets : List Market) (today : PDate) (year : Nat) :
    (truthyStr (resolveYesToken api it.1) = false →
      processItem api it = (Panel.dataUnavailable, mkRow (groupDateLabel it.2.1 it.2.2) "N/A"))
    ∧ (∀ tid, resolveYesToken api it.1 = some tid → tid ≠ "" →
        api.getPriceHistory tid = [] →
        processItem api it = (Panel.noHistory, mkRow (groupDateLabel it.2.1 it.2.2) "N/A"))
    ∧ (validOf markets today year ≠ [] →
        generate_report api markets today year =
          ReportResult.success
            ((selectionOf markets today year).map (fun j => (processItem api j).1))
            ((selectionOf markets today year).map (fun j => (processItem api j).2))) := by
  refine ⟨?_, ?_, generate_report_success api markets today year⟩
  · intro ht
    unfold processItem
    cases hr : resolveYesToken api it.1 with
    | none => rfl
    | some tid =>
      rw [hr] at ht
      simp only [truthyStr] at ht
      have hemp : tid.isEmpty = true := by
        cases he : tid.isEmpty
        · rw [he] at ht
          exact absurd ht (by simp)
        · rfl
      dsimp only
      rw [if_pos hemp]
  · intro tid hr hne hh
    unfold processItem
    rw [hr]
    dsimp only
    rw [if_neg ?_, if_pos (by simp [hh])]
    intro he
    exact hne ((String.isEmpty_iff tid).mp he)

/-- C2 witness: a market with no token data at all yields the
placeholder panel and the sentinel row. -/
theorem missingDataDegradation_witness :
    processItem apiEmpty (mJan31, "January 31", (none : Option PDate)) =
      (Panel.dataUnavailable, mkRow (groupDateLabel "January 31" none) "N/A") :=
  (missingDataDegradation apiEmpty (mJan31, "January 31", none) [] ⟨2026, 1, 1⟩ 2026).1
    (by rfl)

/-- C1: Policy A selection bound and order: for any input list the
selection has at most five items; every selected item whose title
parsed carries a date strictly after today; the selection splits into a
block of dated items, sorted non-decreasingly by date, followed by a
block of undated items; and the undated block is an in-order prefix of
the undated valid items (hence keeps the original relative order, being
a sublist of the input list). -/
theorem policyASelection (markets : List Market) (today : PDate) (year : Nat) :
    (selectionOf markets today year).length ≤ 5
    ∧ (∀ it ∈ selectionOf markets today year, ∀ d, it.2.2 = some d →
        PDate.ltb today d = true)
    ∧ ∃ ds us, selectionOf markets today year = ds ++ us
        ∧ (∀ it ∈ ds, it.2.2.isSome = true)
        ∧ (∀ it ∈ us, it.2.2 = none)
        ∧ ds.Pairwise (fun a b => itemLeb a b = true)
        ∧ (∃ k, us =
            ((validOf markets today year).filter (fun it => it.2.2.isNone)).take k)
        ∧ (us.map (fun it => it.1)).Sublist markets := by
  refine ⟨?_, ?_, ?_⟩
  · simp only [selectionOf, orderedOf, List.length_take]
    omega
  · intro it hit d hd
    obtain ⟨_, _, _, _, hfut⟩ := mem_validOf (mem_selectionOf hit)
    exact (pdate_not_leb d today).mp (hfut d hd)
  · refine ⟨(((validOf markets today year).filter
        (fun it => it.2.2.isSome)).mergeSort itemLeb).take 5,
      ((validOf markets today year).filter (fun it => it.2.2.isNone)).take
        (5 - (((validOf markets today year).filter
          (fun it => it.2.2.isSome)).mergeSort itemLeb).length),
      ?_, ?_, ?_, ?_, ⟨_, rfl⟩, ?_⟩
    · rw [selectionOf, orderedOf, List.take_append_eq_append_take]
    · intro it hit
      have h2 := (List.take_sublist 5 _).subset hit
      have h3 : it ∈ (validOf markets today year).filter (fun it => it.2.2.isSome) :=
        List.mem_mergeSort.mp h2
      exact (List.mem_filter.mp h3).2
    · intro it hit
      have h2 := (List.take_sublist _ _).subset hit
      have h3 := (List.mem_filter.mp h2).2
      simpa using h3
    · exact List.Pairwise.sublist (List.take_sublist _ _)
        (List.sorted_mergeSort itemLeb_trans itemLeb_total _)
    · have h1 : (((validOf markets today year).filter
          (fun it => it.2.2.isNone)).take
            (5 - (((validOf markets today year).filter
              (fun it => it.2.2.isSome)).mergeSort itemLeb).length)).Sublist
          (validOf markets today year) :=
        (List.take_sublist _ _).trans (List.filter_sublist _)
      exact (h1.map (fun it => it.1)).trans (validOf_fst_sublist markets today year)

/-- C1 witness: the length bound at a concrete input. -/
theorem policyASelection_witness :
    (selectionOf [mJan31] ⟨2026, 1, 15⟩ 2026).length ≤ 5 :=
  (policyASelection [mJan31] ⟨2026, 1, 15⟩ 2026).1

theorem processItem_row (api : Api) (j : Market × String × Option PDate) :
    (processItem api j).2 = mkRow (groupDateLabel j.2.1 j.2.2) (probValue api j.1) := by
  unfold processItem probValue
  cases hr : resolveYesToken api j.1 with
  | none => rfl
  | some tid =>
    dsimp only
    by_cases he : tid.isEmpty = true
    · rw [if_pos he, if_pos he]
    · rw [if_neg he, if_neg he]
      by_cases hh : (api.getPriceHistory tid).isEmpty = true
      · rw [if_pos hh, if_pos hh]
      · rw [if_neg hh, if_neg hh]

/-- C5: for a non-empty selection the report is a success whose row list
is exactly the image of the selection under the per-item row function —
one row per selected item, in selection order; each row is the
24-column-padded label joined to its probability column, and that column
is either the last observed price scaled to a percentage, formatted to
one decimal place with a trailing percent sign, or the literal sentinel
when no history (or no token) exists. -/
theorem rowCorrespondence (api : Api) (markets : List Market) (today : PDate) (year : Nat)
    (h : validOf markets today year ≠ []) :
    ∃ rows, generate_report api markets today year =
        ReportResult.success
          ((selectionOf markets today year).map (fun j => (processItem api j).1)) rows
      ∧ rows = (selectionOf markets today year).map (fun j => (processItem api j).2)
      ∧ rows.length = (selectionOf markets today year).length
      ∧ (∀ j ∈ selectionOf markets today year,
          (processItem api j).2 = mkRow (groupDateLabel j.2.1 j.2.2) (probValue api j.1))
      ∧ (∀ j ∈ selectionOf markets today year,
          probValue api j.1 = "N/A"
          ∨ ∃ tid, resolveYesToken api j.1 = some tid ∧ api.getPriceHistory tid ≠ []
              ∧ probValue api j.1
                  = fmtFixed1 (100 * lastPrice (api.getPriceHistory tid)) ++ "%") := by
  refine ⟨(selectionOf markets today year).map (fun j => (processItem api j).2),
    generate_report_success api markets today year h, rfl, by simp, ?_, ?_⟩
  · intro j _
    exact processItem_row api j
  · intro j _
    unfold probValue
    cases hr : resolveYesToken api j.1 with
    | none => exact Or.inl rfl
    | some tid =>
      dsimp only
      by_cases he : tid.isEmpty = true
      · rw [if_pos he]
        exact Or.inl rfl
      · rw [if_neg he]
        by_cases hh : (api.getPriceHistory tid).isEmpty = true
        · rw [if_pos hh]
          exact Or.inl rfl
        · rw [if_neg hh]
          exact Or.inr ⟨tid, rfl, by simpa using hh, rfl⟩

/-- C5 witness: at a concrete three-market input with a one-point
history, the success rows are exactly the mapped per-item rows. -/
theorem rowCorrespondence_witness :
    ∃ rows, generate_report apiEmpty [mJan31] ⟨2026, 1, 15⟩ 2026 =
        ReportResult.success
          ((selectionOf [mJan31] ⟨2026, 1, 15⟩ 2026).map
            (fun j => (processItem apiEmpty j).1)) rows
      ∧ rows = (selectionOf [mJan31] ⟨2026, 1, 15⟩ 2026).map
          (fun j => (processItem apiEmpty j).2)
      ∧ rows.length = (selectionOf [mJan31] ⟨2026, 1, 15⟩ 2026).length
      ∧ (∀ j ∈ selectionOf [mJan31] ⟨2026, 1, 15⟩ 2026,
          (processItem apiEmpty j).2
            = mkRow (groupDateLabel j.2.1 j.2.2) (probValue apiEmpty j.1))
      ∧ (∀ j ∈ selectionOf [mJan31] ⟨2026, 1, 15⟩ 2026,
          probValue apiEmpty j.1 = "N/A"
          ∨ ∃ tid, resolveYesToken apiEmpty j.1 = some tid
              ∧ apiEmpty.getPriceHistory tid ≠ []
              ∧ probValue apiEmpty j.1
                  = fmtFixed1 (100 * lastPrice (apiEmpty.getPriceHistory tid)) ++ "%") :=
  rowCorrespondence apiEmpty [mJan31] ⟨2026, 1, 15⟩ 2026 (by decide)

theorem dropCaseless_sound (p : List Char) : ∀ s r, dropCaseless p s = some r →
    ∃ pre, s = pre ++ r ∧ pre.map pyLower = p.map pyLower := by
  induction p with
  | nil =>
    intro s r h
    simp only [dropCaseless, Option.some_inj] at h
    exact ⟨[], by simp [h], by simp⟩
  | cons pc ps ih =>
    intro s r h
    cases s with
    | nil => simp [dropCaseless] at h
    | cons c cs =>
      simp only [dropCaseless] at h
      by_cases hc : pyLower c = pyLower pc
      · rw [if_pos hc] at h
        obtain ⟨pre, hpre, hmap⟩ := ih cs r h
        exact ⟨c :: pre, by simp [hpre], by simp [hmap, hc]⟩
      · rw [if_neg hc] at h
        exact absurd h (by simp)

theorem monthMatchFrom_sound (ns : List String) : ∀ i s mo r,
    monthMatchFrom i ns s = some (mo, r) →
    ∃ j n, ns.get? j = some n ∧ mo = i + j
      ∧ ∃ pre, s = pre ++ r ∧ pre.map pyLower = n.data.map pyLower := by
  induction ns with
  | nil =>
    intro i s mo r h
    simp [monthMatchFrom] at h
  | cons nm ns ih =>
    intro i s mo r h
    simp only [monthMatchFrom] at h
    cases hdc : dropCaseless nm.data s with
    | some rest =>
      rw [hdc] at h
      dsimp only at h
      have hp := Option.some_inj.mp h
      have h1 : i = mo := congrArg Prod.fst hp
      have h2 : rest = r := congrArg Prod.snd hp
      subst h1
      subst h2
      obtain ⟨pre, hpre, hmap⟩ := dropCaseless_sound nm.data s rest hdc
      exact ⟨0, nm, rfl, by omega, pre, hpre, hmap⟩
    | none =>
      rw [hdc] at h
      dsimp only at h
      obtain ⟨j, n, hget, hmo, pre, hpre, hmap⟩ := ih (i + 1) s mo r h
      exact ⟨j + 1, n, hget, by omega, pre, hpre, hmap⟩

theorem matchMonth_sound (s : List Char) (mo : Nat) (r : List Char)
    (h : matchMonth s = some (mo, r)) :
    1 ≤ mo ∧ mo ≤ 12
    ∧ ∃ pre, s = pre ++ r ∧ pre.map pyLower = (monthName mo).data.map pyLower := by
  obtain ⟨j, n, hget, hmo, pre, hpre, hmap⟩ := monthMatchFrom_sound monthNames 1 s mo r h
  have hj : j < 12 := by
    by_contra hj
    rw [List.get?_eq_none.mpr (by rw [show monthNames.length = 12 from rfl]; omega)] at hget
    exact Option.noConfusion hget
  have hname : monthName mo = n := by
    rw [monthName, show mo - 1 = j from by omega, hget]
    rfl
  exact ⟨by omega, by omega, pre, hpre, by rw [hname]; exact hmap⟩

theorem ws1_sound (s r : List Char) (h : ws1 s = some r) :
    ∃ w, s = w ++ r ∧ w ≠ [] ∧ ∀ c ∈ w, isPySpace c = true := by
  cases s with
  | nil => simp [ws1] at h
  | cons c cs =>
    simp only [ws1] at h
    by_cases hc : isPySpace c = true
    · rw [if_pos hc] at h
      have hr : r = cs.dropWhile isPySpace := (Option.some_inj.mp h).symm
      subst hr
      refine ⟨c :: cs.takeWhile isPySpace, ?_, by simp, ?_⟩
      · simp [List.takeWhile_append_dropWhile]
      · intro x hx
        rcases List.mem_cons.mp hx with hx | hx
        · subst hx
          exact hc
        · exact List.mem_takeWhile_imp hx
    · rw [if_neg hc] at h
      exact absurd h (by simp)

theorem matchDay_sound (s : List Char) (d : Nat) (r : List Char)
    (h : matchDay s = some (d, r)) :
    ∃ ds, s = ds ++ r ∧ ds ≠ [] ∧ ds.length ≤ 2
      ∧ (∀ c ∈ ds, isDig c = true) ∧ digitsToNat ds = d ∧ 1 ≤ d ∧ d ≤ 31 := by
  rcases s with _ | ⟨c1, _ | ⟨c2, rest⟩⟩
  · simp [matchDay] at h
  · simp only [matchDay] at h
    by_cases hc : isD19 c1 = true
    · rw [if_pos hc] at h
      have hp := Option.some_inj.mp h
      have h1 : dval c1 = d := congrArg Prod.fst hp
      have h2 : ([] : List Char) = r := congrArg Prod.snd hp
      simp only [isD19, Bool.and_eq_true, decide_eq_true_eq] at hc
      refine ⟨[c1], by rw [← h2]; rfl, by simp, by simp, ?_, ?_, ?_, ?_⟩
      · intro c hcm
        rcases List.mem_cons.mp hcm with hcm | hcm
        · subst hcm
          simp only [isDig, Bool.and_eq_true, decide_eq_true_eq]
          omega
        · simp at hcm
      · simp only [digitsToNat, List.foldl]
        omega
      · have h0 : ('0' : Char).toNat = 48 := rfl
        simp only [dval, h0] at h1
        omega
      · have h0 : ('0' : Char).toNat = 48 := rfl
        simp only [dval, h0] at h1
        omega
    · rw [if_neg hc] at h
      exact absurd h (by simp)
  · simp only [matchDay] at h
    have h0 : ('0' : Char).toNat = 48 := rfl
    by_cases h2d : twoDigitDay c1 c2 = true
    · rw [if_pos h2d] at h
      have hp := Option.some_inj.mp h
      have h1 : dval c1 * 10 + dval c2 = d := congrArg Prod.fst hp
      have h2 : rest = r := congrArg Prod.snd hp
      subst h2
      have hdig : isDig c1 = true ∧ isDig c2 = true
          ∧ 1 ≤ dval c1 * 10 + dval c2 ∧ dval c1 * 10 + dval c2 ≤ 31 := by
        simp only [twoDigitDay, Bool.or_eq_true, Bool.and_eq_true,
          decide_eq_true_eq] at h2d
        rcases h2d with (⟨hc1, hc2⟩ | ⟨hc1, hc2⟩) | ⟨hc1, hc2⟩
        · subst hc1
          rcases hc2 with hc2 | hc2 <;> subst hc2 <;>
            exact ⟨by decide, by decide, by decide, by decide⟩
        · have hb : 48 ≤ c2.toNat ∧ c2.toNat ≤ 57 := by
            simpa [isDig] using hc2
          rcases hc1 with hc1 | hc1 <;> subst hc1 <;>
            refine ⟨by decide, hc2, ?_, ?_⟩ <;>
            · simp only [show dval '1' = 1 from by decide,
                show dval '2' = 2 from by decide]
              have hdv : dval c2 = c2.toNat - 48 := by simp [dval, h0]
              omega
        · subst hc1
          have hb : 49 ≤ c2.toNat ∧ c2.toNat ≤ 57 := by
            simpa [isD19] using hc2
          refine ⟨by decide, ?_, ?_, ?_⟩
          · simp only [isDig, Bool.and_eq_true, decide_eq_true_eq]
            omega
          all_goals
            simp only [show dval '0' = 0 from by decide]
            have hdv : dval c2 = c2.toNat - 48 := by simp [dval, h0]
            omega
      refine ⟨[c1, c2], rfl, by simp, by simp, ?_, ?_, by omega, by omega⟩
      · intro c hcm
        rcases List.mem_cons.mp hcm with hcm | hcm
        · subst hcm
          exact hdig.1
        · rcases List.mem_cons.mp hcm with hcm | hcm
          · subst hcm
            exact hdig.2.1
          · simp at hcm
      · simp only [digitsToNat, List.foldl]
        omega
    · rw [if_neg h2d] at h
      by_cases h1d : isD19 c1 = true
      · rw [if_pos h1d] at h
        have hp := Option.some_inj.mp h
        have h1 : dval c1 = d := congrArg Prod.fst hp
        have h2 : c2 :: rest = r := congrArg Prod.snd hp
        simp only [isD19, Bool.and_eq_true, decide_eq_true_eq] at h1d
        refine ⟨[c1], by rw [← h2]; rfl, by simp, by simp, ?_, ?_, ?_, ?_⟩
        · intro c hcm
          rcases List.mem_cons.mp hcm with hcm | hcm
          · subst hcm
            simp only [isDig, Bool.and_eq_true, decide_eq_true_eq]
            omega
          · simp at hcm
        · simp only [digitsToNat, List.foldl]
          omega
        · simp only [dval, h0] at h1
          omega
        · simp only [dval, h0] at h1
          omega
      · rw [if_neg h1d] at h
        exact absurd h (by simp)

theorem matchYear4_sound (s : List Char) (y : Nat) (h : matchYear4 s = some y) :
    s.length = 4 := by
  rcases s with _ | ⟨a, _ | ⟨b, _ | ⟨c, _ | ⟨d, _ | ⟨e, t⟩⟩⟩⟩⟩
  · simp [matchYear4] at h
  · simp [matchYear4] at h
  · simp [matchYear4] at h
  · simp [matchYear4] at h
  · rfl
  · simp [matchYear4] at h

theorem parse2026_sound (s : String) (r : PDate) (h : parse_market_date s 2026 = some r) :
    r.year = 2026 ∧ 1 ≤ r.month ∧ r.month ≤ 12 ∧ 1 ≤ r.day
    ∧ r.day ≤ daysInMonth 2026 r.month ∧ TitleDateForm s r.month r.day := by
  unfold parse_market_date at h
  have hdata : (s ++ " " ++ toString 2026).data = s.data ++ [' ', '2', '0', '2', '6'] := by
    rw [String.data_append, String.data_append,
      show (toString 2026).data = ['2', '0', '2', '6'] from by decide]
    simp
  rw [hdata] at h
  unfold parseFullChars at h
  cases hm : matchMonth (s.data ++ [' ', '2', '0', '2', '6']) with
  | none => rw [hm] at h; exact absurd h (by simp)
  | some pr =>
  obtain ⟨mo, r1⟩ := pr
  rw [hm] at h
  dsimp only at h
  cases hw1 : ws1 r1 with
  | none => rw [hw1] at h; exact absurd h (by simp)
  | some r2 =>
  rw [hw1] at h
  dsimp only at h
  cases hdy : matchDay r2 with
  | none => rw [hdy] at h; exact absurd h (by simp)
  | some pr2 =>
  obtain ⟨d, r3⟩ := pr2
  rw [hdy] at h
  dsimp only at h
  cases hw2 : ws1 r3 with
  | none => rw [hw2] at h; exact absurd h (by simp)
  | some r4 =>
  rw [hw2] at h
  dsimp only at h
  cases hy : matchYear4 r4 with
  | none => rw [hy] at h; exact absurd h (by simp)
  | some y =>
  rw [hy] at h
  dsimp only at h
  by_cases hcond : (1 ≤ y && d ≤ daysInMonth y mo) = true
  case neg => rw [if_neg hcond] at h; exact absurd h (by simp)
  rw [if_pos hcond] at h
  have hr : r = ⟨y, mo, d⟩ := (Option.some_inj.mp h).symm
  obtain ⟨hmo1, hmo12, mpre, e1, hmap⟩ := matchMonth_sound _ mo r1 hm
  obtain ⟨w1, e2, hw1ne, hw1sp⟩ := ws1_sound r1 r2 hw1
  obtain ⟨ds, e3, hdne, hdlen, hddig, hdval, hd1, hd31⟩ := matchDay_sound r2 d r3 hdy
  obtain ⟨w2, e4, hw2ne, hw2sp⟩ := ws1_sound r3 r4 hw2
  have hlen4 : r4.length = 4 := matchYear4_sound r4 y hy
  have hbig : s.data ++ [' ', '2', '0', '2', '6'] = (mpre ++ w1 ++ ds ++ w2) ++ r4 := by
    rw [e1, e2, e3, e4]
    simp [List.append_assoc]
  have hb2 : (s.data ++ [' ']) ++ ['2', '0', '2', '6'] = (mpre ++ w1 ++ ds ++ w2) ++ r4 := by
    rw [← hbig]
    simp
  obtain ⟨hA, hY⟩ := List.append_inj' hb2 (by simp [hlen4])
  have hy26 : y = 2026 := by
    rw [← hY] at hy
    have hcalc : matchYear4 ['2', '0', '2', '6'] = some 2026 := by decide
    rw [hcalc] at hy
    exact (Option.some_inj.mp hy).symm
  have hwl : w2.dropLast ++ [w2.getLast hw2ne] = w2 := List.dropLast_append_getLast hw2ne
  rw [← hwl] at hA
  rw [show mpre ++ w1 ++ ds ++ (w2.dropLast ++ [w2.getLast hw2ne])
      = (mpre ++ w1 ++ ds ++ w2.dropLast) ++ [w2.getLast hw2ne] from by
    simp [List.append_assoc]] at hA
  obtain ⟨hS, _⟩ := List.append_inj' hA (by simp)
  subst hy26
  subst hr
  simp only [Bool.and_eq_true, decide_eq_true_eq] at hcond
  refine ⟨rfl, hmo1, hmo12, hd1, hcond.2, ?_⟩
  refine ⟨mpre, w1, ds, w2.dropLast, hS, hmap, hw1ne, hw1sp, hdne, hdlen, hddig, hdval, ?_⟩
  intro c hc
  exact hw2sp c ((List.dropLast_sublist w2).subset hc)

theorem canonical_parse (mo d : Nat) (hmo : mo < 13) (hd : d < 32) (h1 : 1 ≤ mo)
    (h2 : 1 ≤ d) (h3 : d ≤ daysInMonth 2026 mo) :
    parse_market_date (monthName mo ++ " " ++ toString d) 2026 = some ⟨2026, mo, d⟩ := by
  have hall : checkCanonicalTitles = true := by decide
  have hmo' := List.all_eq_true.mp hall mo (List.mem_range.mpr hmo)
  have hin := List.all_eq_true.mp hmo' d (List.mem_range.mpr hd)
  simp only [Bool.or_eq_true, Bool.not_eq_eq_eq_not, Bool.and_eq_true,
    decide_eq_true_eq, beq_iff_eq] at hin
  rcases hin with hin | hin
  · exact absurd hin (by simp [h1, h2, h3])
  · exact hin

/-- C3: the Date Parser total contract (the current year instantiated as
two thousand twenty-six).  Every canonical month-name-plus-valid-day
title parses to that month and day with the current year; conversely,
any string the parser accepts has the month-name day shape made precise
by `TitleDateForm` (month name case-insensitively, then whitespace, then
a one- or two-digit day valid for that month, then optional trailing
whitespace) — every other string yields none.  The parser is a total
function by construction, so it never raises. -/
theorem dateParserContract :
    (∀ mo, mo < 13 → ∀ d, d < 32 → 1 ≤ mo → 1 ≤ d → d ≤ daysInMonth 2026 mo →
      parse_market_date (monthName mo ++ " " ++ toString d) 2026 = some ⟨2026, mo, d⟩)
    ∧ (∀ s r, parse_market_date s 2026 = some r →
        r.year = 2026 ∧ 1 ≤ r.month ∧ r.month ≤ 12 ∧ 1 ≤ r.day
        ∧ r.day ≤ daysInMonth 2026 r.month ∧ TitleDateForm s r.month r.day) :=
  ⟨fun mo hmo d hd h1 h2 h3 => canonical_parse mo d hmo hd h1 h2 h3,
   fun s r h => parse2026_sound s r h⟩

/-- C3 witness: the canonical title for the thirty-first of January. -/
theorem dateParserContract_witness :
    parse_market_date (monthName 1 ++ " " ++ toString 31) 2026 = some ⟨2026, 1, 31⟩ :=
  dateParserContract.1 1 (by decide) 31 (by decide) (by decide) (by decide) (by decide)

theorem pickMin_spec (f : α → Nat) (xs : List α) : ∀ x : α,
    (∀ y ∈ x :: xs, f (pickMin f x xs) ≤ f y)
    ∧ ∃ pre suf, x :: xs = pre ++ pickMin f x xs :: suf
        ∧ ∀ p ∈ pre, f (pickMin f x xs) < f p := by
  induction xs with
  | nil =>
    intro x
    refine ⟨?_, [], [], rfl, by simp⟩
    intro y hy
    simp at hy
    subst hy
    exact Nat.le_refl _
  | cons y ys ih =>
    intro x
    have hstep : pickMin f x (y :: ys) = pickMin f (if f y < f x then y else x) ys := rfl
    by_cases hc : f y < f x
    · rw [if_pos hc] at hstep
      obtain ⟨hmin, pre, suf, hdec, hpre⟩ := ih y
      rw [hstep]
      refine ⟨?_, x :: pre, suf, by simp [hdec], ?_⟩
      · intro z hz
        rcases List.mem_cons.mp hz with hz | hz
        · subst hz
          have := hmin y (List.mem_cons_self y ys)
          omega
        · exact hmin z hz
      · intro p hp
        rcases List.mem_cons.mp hp with hp | hp
        · subst hp
          have := hmin y (List.mem_cons_self y ys)
          omega
        · exact hpre p hp
    · rw [if_neg hc] at hstep
      obtain ⟨hmin, pre, suf, hdec, hpre⟩ := ih x
      rw [hstep]
      cases pre with
      | nil =>
        simp only [List.nil_append] at hdec
        have hx : pickMin f x ys = x := List.head_eq_of_cons_eq hdec.symm
        refine ⟨?_, [], y :: ys, by rw [hx]; rfl, by simp⟩
        intro z hz
        rcases List.mem_cons.mp hz with hz | hz
        · subst hz
          rw [hx]
        · rcases List.mem_cons.mp hz with hz | hz
          · subst hz
            rw [hx]
            omega
          · exact hmin z (List.mem_cons_of_mem x hz)
      | cons a pre₂ =>
        have ha : a = x := (List.head_eq_of_cons_eq hdec).symm
        have hys : ys = pre₂ ++ pickMin f x ys :: suf := List.tail_eq_of_cons_eq hdec
        have hrx : f (pickMin f x ys) < f x := by
          have := hpre a (List.mem_cons_self a pre₂)
          rw [ha] at this
          exact this
        refine ⟨?_, x :: y :: pre₂, suf, by rw [List.cons_append, List.cons_append, ← hys], ?_⟩
        · intro z hz
          rcases List.mem_cons.mp hz with hz | hz
          · subst hz
            omega
          · rcases List.mem_cons.mp hz with hz | hz
            · subst hz
              omega
            · exact hmin z (List.mem_cons_of_mem x hz)
        · intro p hp
          rcases List.mem_cons.mp hp with hp | hp
          · subst hp
            omega
          · rcases List.mem_cons.mp hp with hp | hp
            · subst hp
              omega
            · exact hpre p (List.mem_cons_of_mem a hp)

/-- C9 (spec-modelled): whenever at least one sub-market title parses,
Policy B produces exactly three rows, one per target (now, now plus
seven days, last day of the current month); each row attains the
minimum absolute date distance to its target and strictly beats every
earlier candidate (first-encountered-minimum tie-breaking); nothing
deduplicates the rows, so one sub-market may fill several of them. -/
theorem policyBShape (markets : List Market) (now : PDate) (year : Nat)
    (h : datedOnly markets year ≠ []) :
    ∃ r1 r2 r3, policyB markets now year = some [r1, r2, r3]
      ∧ bestFor (datedOnly markets year) (toOrd now) r1
      ∧ bestFor (datedOnly markets year) (toOrd now + 7) r2
      ∧ bestFor (datedOnly markets year)
          (toOrd ⟨now.year, now.month, daysInMonth now.year now.month⟩) r3 := by
  cases hd : datedOnly markets year with
  | nil => exact absurd hd h
  | cons x xs =>
    refine ⟨pickMin (fun it => dateDist (toOrd it.2) (toOrd now)) x xs,
      pickMin (fun it => dateDist (toOrd it.2) (toOrd now + 7)) x xs,
      pickMin (fun it => dateDist (toOrd it.2)
        (toOrd ⟨now.year, now.month, daysInMonth now.year now.month⟩)) x xs,
      ?_, ?_, ?_, ?_⟩
    · unfold policyB
      rw [hd]
      simp [policyBTargets]
    · unfold bestFor
      obtain ⟨hmin, pre, suf, hdec, hpre⟩ :=
        pickMin_spec (fun it => dateDist (toOrd it.2) (toOrd now)) xs x
      exact ⟨hmin, pre, suf, hdec, hpre⟩
    · unfold bestFor
      obtain ⟨hmin, pre, suf, hdec, hpre⟩ :=
        pickMin_spec (fun it => dateDist (toOrd it.2) (toOrd now + 7)) xs x
      exact ⟨hmin, pre, suf, hdec, hpre⟩
    · unfold bestFor
      obtain ⟨hmin, pre, suf, hdec, hpre⟩ :=
        pickMin_spec (fun it => dateDist (toOrd it.2)
          (toOrd ⟨now.year, now.month, daysInMonth now.year now.month⟩)) xs x
      exact ⟨hmin, pre, suf, hdec, hpre⟩

/-- C9 witness: with a single dated market, all three rows exist (and
are that market, demonstrating legitimate repetition). -/
theorem policyBShape_witness :
    ∃ r1 r2 r3, policyB [mJan31] ⟨2026, 1, 15⟩ 2026 = some [r1, r2, r3]
      ∧ bestFor (datedOnly [mJan31] 2026) (toOrd ⟨2026, 1, 15⟩) r1
      ∧ bestFor (datedOnly [mJan31] 2026) (toOrd ⟨2026, 1, 15⟩ + 7) r2
      ∧ bestFor (datedOnly [mJan31] 2026)
          (toOrd ⟨2026, 1, daysInMonth 2026 1⟩) r3 :=
  policyBShape [mJan31] ⟨2026, 1, 15⟩ 2026 (by decide)

/-- C10 witness: a record whose yes outcome sits at index one of the
outcome names while the decoded token-id list has length one resolves to
none rather than indexing out of bounds. -/
theorem tokenLookupIndexSafety_witness :
    get_yes_token_id ⟨"", false, false, none, none, none, none,
      RawField.lst ["No", "Yes"], RawField.strGood ["t0"]⟩ = none :=
  (tokenLookupIndexSafety ⟨"", false, false, none, none, none, none,
      RawField.lst ["No", "Yes"], RawField.strGood ["t0"]⟩).2.1 rfl 1
    (by decide) (by decide)
